import Mathlib

/-!
Verification of the `metaphone` Go package (Double Metaphone phonetic
encoder plus a sound-index convenience layer).

The encoder `DoubleMetaphone` from `metaphone.go` is embedded shallowly:
Go strings are Lean `String`s, the rune slice `rword` is a `List Char`,
the cursor is an `Int` (Go `int`), and the two `strings.Builder` buffers
are `List Char` accumulators.  `maxlength` is an `Int` so that the
`maxlength < 1` fallback is modelled exactly.  The `panic` in the
emission helper `MetaphAdd` is modelled by `Option`: `none` is the
assertion failure, and the main loop propagates it.  The Go loop has no
fuel; here the loop carries a fuel argument (exhaustion also yields
`none`) and a theorem shows the run always yields `some`, i.e. the fuel
is sufficient and the assertion is unreachable.

All phonetic tokens emitted by the algorithm are ASCII, so Go's
byte-level `len` and byte slicing on the produced codes coincide with
`List.length` and `List.take` on the accumulated characters; the byte
length of the *input* word (`length := len(word)` in Go, taken before
uppercasing) is modelled exactly as `String.utf8ByteSize`.
-/

namespace Metaphone

/-- Model of Go `unicode`/`strings.ToUpper`, applied rune by rune.
Exact (per the Unicode simple case mappings that Go implements) on
ASCII, on `ç`/`ñ`, and on the two code points whose simple uppercase
mapping lands in ASCII: U+017F LATIN SMALL LETTER LONG S (→ `S`) and
U+0131 LATIN SMALL LETTER DOTLESS I (→ `I`).  Identity on all other
code points; theorems that depend on case mapping restrict themselves
to the exactly-modelled fragment. -/
def goToUpperChar (c : Char) : Char :=
  if c = Char.ofNat 383 then 'S'
  else if c = Char.ofNat 305 then 'I'
  else
    match c with
    | 'a' => 'A' | 'b' => 'B' | 'c' => 'C' | 'd' => 'D' | 'e' => 'E'
    | 'f' => 'F' | 'g' => 'G' | 'h' => 'H' | 'i' => 'I' | 'j' => 'J'
    | 'k' => 'K' | 'l' => 'L' | 'm' => 'M' | 'n' => 'N' | 'o' => 'O'
    | 'p' => 'P' | 'q' => 'Q' | 'r' => 'R' | 's' => 'S' | 't' => 'T'
    | 'u' => 'U' | 'v' => 'V' | 'w' => 'W' | 'x' => 'X' | 'y' => 'Y'
    | 'z' => 'Z' | 'ç' => 'Ç' | 'ñ' => 'Ñ'
    | other => other

/-- Model of Go `unicode`/`strings.ToLower`, applied rune by rune.
Exact on ASCII, on `Ç`/`Ñ`, and on the code points whose simple
lowercase mapping lands in the encoder-relevant fragment:
U+212A KELVIN SIGN (→ `k`), U+212B ANGSTROM SIGN (→ U+00E5 `å`),
U+0130 LATIN CAPITAL LETTER I WITH DOT ABOVE (→ `i`).  Identity on all
other code points. -/
def goToLowerChar (c : Char) : Char :=
  if c = Char.ofNat 8490 then 'k'
  else if c = Char.ofNat 8491 then Char.ofNat 229
  else if c = Char.ofNat 304 then 'i'
  else
    match c with
    | 'A' => 'a' | 'B' => 'b' | 'C' => 'c' | 'D' => 'd' | 'E' => 'e'
    | 'F' => 'f' | 'G' => 'g' | 'H' => 'h' | 'I' => 'i' | 'J' => 'j'
    | 'K' => 'k' | 'L' => 'l' | 'M' => 'm' | 'N' => 'n' | 'O' => 'o'
    | 'P' => 'p' | 'Q' => 'q' | 'R' => 'r' | 'S' => 's' | 'T' => 't'
    | 'U' => 'u' | 'V' => 'v' | 'W' => 'w' | 'X' => 'x' | 'Y' => 'y'
    | 'Z' => 'z' | 'Ç' => 'ç' | 'Ñ' => 'ñ'
    | other => other

/-- `strings.ToUpper` on a whole word. -/
def goToUpper (s : String) : String := ⟨s.data.map goToUpperChar⟩

/-- `strings.ToLower` on a whole word. -/
def goToLower (s : String) : String := ⟨s.data.map goToLowerChar⟩

/-- The five-space pad appended to the uppercased word
(`const pad = "     "` in `DoubleMetaphone`). -/
def goPad : List Char := [' ', ' ', ' ', ' ', ' ']

/-- The read-only context of one `DoubleMetaphone` call:
`rword` is the rune slice of the uppercased, padded word;
`len` is Go's `length := len(word)` (UTF-8 byte length of the original
word, taken before uppercasing); `last := length - 1`;
`maxlength` is the (already coerced) maximum code length. -/
structure Ctx where
  rword : List Char
  len : Int
  last : Int
  maxlength : Int
deriving Repr, DecidableEq

/-- The mutable state of one `DoubleMetaphone` call: the cursor
`current`, the two `strings.Builder` buffers and the `alternate` flag. -/
structure MState where
  current : Int
  primary : List Char
  secondary : List Char
  alternate : Bool
deriving Repr, DecidableEq

/-- `GetAt`: the rune at index `i` in `rword`, or `rune(0)` if `i` is
out of range. -/
def GetAt (ctx : Ctx) (i : Int) : Char :=
  if i < 0 ∨ i ≥ (ctx.rword.length : Int) then Char.ofNat 0
  else ctx.rword.getD i.toNat (Char.ofNat 0)

/-- `IsVowel`: whether the rune at index `i` in `rword` is one of
`AEIOUY`; `false` for any out-of-range index. -/
def IsVowel (ctx : Ctx) (i : Int) : Bool :=
  if i < 0 ∨ i ≥ (ctx.rword.length : Int) then false
  else "AEIOUY".data.contains (GetAt ctx i)

/-- `StringAt`: whether any candidate in `s` appears in `rword` at
offset `start` with the given `length`; `false` whenever the window
starts below 0 or `start+length` is not strictly below `len(rword)`
(the Go guard is `start < 0 || (start+length) >= rwordLen`). -/
def StringAt (ctx : Ctx) (start length : Int) (s : List String) : Bool :=
  if start < 0 ∨ start + length ≥ (ctx.rword.length : Int) then false
  else
    let target := (ctx.rword.drop start.toNat).take length.toNat
    s.any (fun cand => cand.data == target)

/-- `Found`: whether `s` occurs in the uppercased padded word
(`strings.Contains(word, s)`; the needles used are ASCII, for which
byte-level containment coincides with rune-level containment). -/
def Found (ctx : Ctx) (s : String) : Bool :=
  decide (List.IsInfix s.data ctx.rword)

/-- `SlavoGermanic`: the word contains `W`, or `K`, or the digraph
`CZ`. -/
def SlavoGermanic (ctx : Ctx) : Bool :=
  Found ctx "W" || Found ctx "K" || Found ctx "CZ"

/-- The one-argument behaviour of `MetaphAdd`: the token is appended to
both buffers. -/
def MetaphAdd1 (st : MState) (main : String) : MState :=
  { st with primary := st.primary ++ main.data,
            secondary := st.secondary ++ main.data }

/-- The two-argument behaviour of `MetaphAdd`: the first token goes to
`primary`; a non-empty second token sets `alternate` and goes to
`secondary` unless it starts with a blank (Go tests `alt[0] != ' '`,
modelled via `head?` since the emptiness test has already passed); an
empty second token falls back to appending the first to `secondary`
unless it is empty or starts with a blank. -/
def MetaphAdd2 (st : MState) (main alt : String) : MState :=
  let st1 := { st with primary := st.primary ++ main.data }
  if alt.length > 0 then
    { st1 with alternate := true,
               secondary :=
                 if alt.data.head? = some ' ' then st1.secondary
                 else st1.secondary ++ alt.data }
  else if main.length > 0 ∧ main.data.head? ≠ some ' ' then
    { st1 with secondary := st1.secondary ++ main.data }
  else st1

/-- `MetaphAdd`: appends tokens to the buffers.  Any arity other than
one or two trips the internal contract assertion (a fatal
programming-error halt in Go), modelled as `none`. -/
def MetaphAdd (st : MState) (s : List String) : Option MState :=
  match s with
  | [main] => some (MetaphAdd1 st main)
  | [main, alt] => some (MetaphAdd2 st main alt)
  | _ => none

/-- Sets the cursor of an optional state (models Go's `current += k`
sequenced with a `MetaphAdd` in the same switch branch). -/
def setCur (o : Option MState) (c : Int) : Option MState :=
  o.map fun st => { st with current := c }

/-- The tail of the `W` case of the main-loop switch, after the
`WR` test and the possible word-initial emission (whose outcome is the
argument `o`): the `Arnow`/`-owski`/`SCH` rule, the polish
`WICZ`/`WITZ` rule, or skipping the `W`. -/
def wRest (ctx : Ctx) (c : Int) (o : Option MState) : Option MState :=
  o.bind fun st1 =>
    -- Arnow should match Arnoff
    if (c = ctx.last ∧ IsVowel ctx (c-1)) ∨
        StringAt ctx (c-1) 5 ["EWSKI", "EWSKY", "OWSKI", "OWSKY"] ∨
        StringAt ctx 0 3 ["SCH"] then
      setCur (MetaphAdd st1 ["", "F"]) (c+1)
    -- polish e.g. 'filipowicz'
    else if StringAt ctx c 4 ["WICZ", "WITZ"] then
      setCur (MetaphAdd st1 ["TS", "FX"]) (c+4)
    else -- else skip it
      some { st1 with current := c + 1 }

/-- The `A` | `E` | `I` | `O` | `U` | `Y` case of the main-loop switch of `DoubleMetaphone`. -/
def stepVowel (ctx : Ctx) (st : MState) (c : Int) : Option MState :=
  -- all initial vowels map to 'A'; vowels elsewhere are silent
  if c = 0 then setCur (MetaphAdd st ["A"]) (c + 1)
  else some { st with current := c + 1 }


/-- The `B` case of the main-loop switch of `DoubleMetaphone`. -/
def stepB (ctx : Ctx) (st : MState) (c : Int) : Option MState :=
  setCur (MetaphAdd st ["P"]) (if GetAt ctx (c+1) = 'B' then c+2 else c+1)


/-- The `Ç` case of the main-loop switch of `DoubleMetaphone`. -/
def stepCCedilla (ctx : Ctx) (st : MState) (c : Int) : Option MState :=
  setCur (MetaphAdd st ["S"]) (c + 1)


/-- The `C` case of the main-loop switch of `DoubleMetaphone`. -/
def stepC (ctx : Ctx) (st : MState) (c : Int) : Option MState :=
  -- various germanic
  if c > 1 ∧ ¬IsVowel ctx (c-2) ∧ StringAt ctx (c-1) 3 ["ACH"] ∧
      (GetAt ctx (c+2) ≠ 'I' ∧
        (GetAt ctx (c+2) ≠ 'E' ∨ StringAt ctx (c-2) 6 ["BACHER", "MACHER"])) then
    setCur (MetaphAdd st ["K"]) (c+2)
  -- special case 'caesar'
  else if c = 0 ∧ StringAt ctx c 6 ["CAESAR"] then
    setCur (MetaphAdd st ["S"]) (c+2)
  -- italian 'chianti'
  else if StringAt ctx c 4 ["CHIA"] then
    setCur (MetaphAdd st ["K"]) (c+2)
  else if StringAt ctx c 2 ["CH"] then
    -- find 'michael'
    if c > 0 ∧ StringAt ctx c 4 ["CHAE"] then
      setCur (MetaphAdd st ["K", "X"]) (c+2)
    -- greek roots e.g. 'chemistry', 'chorus'
    else if c = 0 ∧
        (StringAt ctx (c+1) 5 ["HARAC", "HARIS"] ∨
          StringAt ctx (c+1) 3 ["HOR", "HYM", "HIA", "HEM"]) ∧
        ¬StringAt ctx 0 5 ["CHORE"] then
      setCur (MetaphAdd st ["K"]) (c+2)
    -- germanic, greek, or otherwise 'ch' for 'kh' sound
    else if (StringAt ctx 0 4 ["VAN ", "VON "] ∨ StringAt ctx 0 3 ["SCH"]) ∨
        StringAt ctx (c-2) 6 ["ORCHES", "ARCHIT", "ORCHID"] ∨
        StringAt ctx (c+2) 1 ["T", "S"] ∨
        ((StringAt ctx (c-1) 1 ["A", "O", "U", "E"] ∨ c = 0) ∧
          StringAt ctx (c+2) 1 ["L", "R", "N", "M", "B", "H", "F", "V", "W", " "]) then
      setCur (MetaphAdd st ["K"]) (c+2)
    else if c > 0 then
      if StringAt ctx 0 2 ["MC"] then setCur (MetaphAdd st ["K"]) (c+2)
      else setCur (MetaphAdd st ["X", "K"]) (c+2)
    else setCur (MetaphAdd st ["X"]) (c+2)
  -- e.g. 'czerny'
  else if StringAt ctx c 2 ["CZ"] ∧ ¬StringAt ctx (c-2) 4 ["WICZ"] then
    setCur (MetaphAdd st ["S", "X"]) (c+2)
  -- e.g. 'focaccia'
  else if StringAt ctx (c+1) 3 ["CIA"] then
    setCur (MetaphAdd st ["X"]) (c+3)
  -- double 'C', but not if e.g. 'McClellan'
  else if StringAt ctx c 2 ["CC"] ∧ ¬(c = 1 ∧ GetAt ctx 0 = 'M') then
    -- 'bellocchio' but not 'bacchus'
    if StringAt ctx (c+2) 1 ["I", "E", "H"] ∧ ¬StringAt ctx (c+2) 2 ["HU"] then
      -- 'accident', 'accede', 'succeed' vs other italian
      if (c = 1 ∧ GetAt ctx (c-1) = 'A') ∨
          StringAt ctx (c-1) 5 ["UCCEE", "UCCES"] then
        setCur (MetaphAdd st ["KS"]) (c+3)
      else
        setCur (MetaphAdd st ["X"]) (c+3)
    else -- Pierce's rule
      setCur (MetaphAdd st ["K"]) (c+2)
  else if StringAt ctx c 2 ["CK", "CG", "CQ"] then
    setCur (MetaphAdd st ["K"]) (c+2)
  else if StringAt ctx c 2 ["CI", "CE", "CY"] then
    -- italian vs. english
    if StringAt ctx c 3 ["CIO", "CIE", "CIA"] then
      setCur (MetaphAdd st ["S", "X"]) (c+2)
    else
      setCur (MetaphAdd st ["S"]) (c+2)
  else
    -- name sent in 'mac caffrey', 'mac gregor'
    setCur (MetaphAdd st ["K"])
      (if StringAt ctx (c+1) 2 [" C", " Q", " G"] then c+3
       else if StringAt ctx (c+1) 1 ["C", "K", "Q"] ∧
           ¬StringAt ctx (c+1) 2 ["CE", "CI"] then c+2
       else c+1)


/-- The `D` case of the main-loop switch of `DoubleMetaphone`. -/
def stepD (ctx : Ctx) (st : MState) (c : Int) : Option MState :=
  if StringAt ctx c 2 ["DG"] then
    if StringAt ctx (c+2) 1 ["I", "E", "Y"] then
      setCur (MetaphAdd st ["J"]) (c+3)   -- e.g. 'edge'
    else
      setCur (MetaphAdd st ["TK"]) (c+2)  -- e.g. 'edgar'
  else if StringAt ctx c 2 ["DT", "DD"] then
    setCur (MetaphAdd st ["T"]) (c+2)
  else
    setCur (MetaphAdd st ["T"]) (c+1)


/-- The `F` case of the main-loop switch of `DoubleMetaphone`. -/
def stepF (ctx : Ctx) (st : MState) (c : Int) : Option MState :=
  setCur (MetaphAdd st ["F"]) (if GetAt ctx (c+1) = 'F' then c+2 else c+1)


/-- The `G` case of the main-loop switch of `DoubleMetaphone`. -/
def stepG (ctx : Ctx) (st : MState) (c : Int) : Option MState :=
  if GetAt ctx (c+1) = 'H' then
    if c > 0 ∧ ¬IsVowel ctx (c-1) then
      setCur (MetaphAdd st ["K"]) (c+2)
    -- 'ghislane', 'ghiradelli'
    else if c < 3 ∧ c = 0 then
      if GetAt ctx (c+2) = 'I' then setCur (MetaphAdd st ["J"]) (c+2)
      else setCur (MetaphAdd st ["K"]) (c+2)
    else
      -- Parker's rule (with some further refinements) - e.g., 'hugh'
      setCur
        (if ¬((c > 1 ∧ StringAt ctx (c-2) 1 ["B", "H", "D"]) ∨
              (c > 2 ∧ StringAt ctx (c-3) 1 ["B", "H", "D"]) ∨
              (c > 3 ∧ StringAt ctx (c-4) 1 ["B", "H"])) then
          -- e.g., 'laugh', 'McLaughlin', 'cough', 'gough', 'rough', 'tough'
          if c > 2 ∧ GetAt ctx (c-1) = 'U' ∧
              StringAt ctx (c-3) 1 ["C", "G", "L", "R", "T"] then
            MetaphAdd st ["F"]
          else if c > 0 ∧ GetAt ctx (c-1) ≠ 'I' then
            MetaphAdd st ["K"]
          else some st
        else some st) (c+2)
  else if GetAt ctx (c+1) = 'N' then
    setCur
      (if c = 1 ∧ IsVowel ctx 0 ∧ ¬SlavoGermanic ctx then
        MetaphAdd st ["KN", "N"]
      -- not e.g. 'cagney'
      else if ¬StringAt ctx (c+2) 2 ["EY"] ∧ GetAt ctx (c+1) ≠ 'Y' ∧
          ¬SlavoGermanic ctx then
        MetaphAdd st ["N", "KN"]
      else MetaphAdd st ["KN"]) (c+2)
  -- 'tagliaro'
  else if StringAt ctx (c+1) 2 ["LI"] ∧ ¬SlavoGermanic ctx then
    setCur (MetaphAdd st ["KL", "L"]) (c+2)
  -- -ges-, -gep-, -gel-, -gie- at beginning
  else if c = 0 ∧ (GetAt ctx (c+1) = 'Y' ∨
      StringAt ctx (c+1) 2
        ["ES", "EP", "EB", "EL", "EY", "IB", "IL", "IN", "IE", "EI", "ER"]) then
    setCur (MetaphAdd st ["K", "J"]) (c+2)
  -- -ger-, -gy-
  else if (StringAt ctx (c+1) 2 ["ER"] ∨ GetAt ctx (c+1) = 'Y') ∧
      ¬StringAt ctx 0 6 ["DANGER", "RANGER", "MANGER"] ∧
      ¬StringAt ctx (c-1) 1 ["E", "I"] ∧
      ¬StringAt ctx (c-1) 3 ["RGY", "OGY"] then
    setCur (MetaphAdd st ["K", "J"]) (c+2)
  -- italian e.g. 'biaggi'
  else if StringAt ctx (c+1) 1 ["E", "I", "Y"] ∨
      StringAt ctx (c-1) 4 ["AGGI", "OGGI"] then
    setCur
      -- obvious germanic
      (if StringAt ctx 0 4 ["VAN ", "VON "] ∨ StringAt ctx 0 3 ["SCH"] ∨
          StringAt ctx (c+1) 2 ["ET"] then
        MetaphAdd st ["K"]
      -- always soft if french ending
      else if StringAt ctx (c+1) 4 ["IER "] then
        MetaphAdd st ["J"]
      else MetaphAdd st ["J", "K"]) (c+2)
  else
    setCur (MetaphAdd st ["K"]) (if GetAt ctx (c+1) = 'G' then c+2 else c+1)


/-- The `H` case of the main-loop switch of `DoubleMetaphone`. -/
def stepH (ctx : Ctx) (st : MState) (c : Int) : Option MState :=
  -- only keep if first & before vowel or btw. 2 vowels
  if (c = 0 ∨ IsVowel ctx (c-1)) ∧ IsVowel ctx (c+1) then
    setCur (MetaphAdd st ["H"]) (c+2)
  else -- also takes care of 'HH'
    some { st with current := c + 1 }


/-- The `J` case of the main-loop switch of `DoubleMetaphone`. -/
def stepJ (ctx : Ctx) (st : MState) (c : Int) : Option MState :=
  -- obvious spanish, 'jose', 'san jacinto'
  if StringAt ctx c 4 ["JOSE"] ∨ StringAt ctx 0 4 ["SAN "] then
    setCur
      (if (c = 0 ∧ GetAt ctx (c+4) = ' ') ∨ StringAt ctx 0 4 ["SAN "] then
        MetaphAdd st ["H"]
      else MetaphAdd st ["J", "H"]) (c+1)
  else
    setCur
      (if c = 0 ∧ ¬StringAt ctx c 4 ["JOSE"] then
        MetaphAdd st ["J", "A"] -- Yankelovich/Jankelowicz
      -- spanish pron. of e.g. 'bajador'
      else if IsVowel ctx (c-1) ∧ ¬SlavoGermanic ctx ∧
          (GetAt ctx (c+1) = 'A' ∨ GetAt ctx (c+1) = 'O') then
        MetaphAdd st ["J", "H"]
      else if c = ctx.last then
        MetaphAdd st ["J", " "]
      else if ¬StringAt ctx (c+1) 1 ["L", "T", "K", "S", "N", "M", "B", "Z"] ∧
          ¬StringAt ctx (c-1) 1 ["S", "K", "L"] then
        MetaphAdd st ["J"]
      else some st) (if GetAt ctx (c+1) = 'J' then c+2 else c+1)


/-- The `K` case of the main-loop switch of `DoubleMetaphone`. -/
def stepK (ctx : Ctx) (st : MState) (c : Int) : Option MState :=
  setCur (MetaphAdd st ["K"]) (if GetAt ctx (c+1) = 'K' then c+2 else c+1)


/-- The `L` case of the main-loop switch of `DoubleMetaphone`. -/
def stepL (ctx : Ctx) (st : MState) (c : Int) : Option MState :=
  if GetAt ctx (c+1) = 'L' then
    -- spanish e.g. 'cabrillo', 'gallegos'
    if (c = ctx.len - 3 ∧
          StringAt ctx (c-1) 4 ["ILLO", "ILLA", "ALLE"]) ∨
        ((StringAt ctx (ctx.last-1) 2 ["AS", "OS"] ∨
            StringAt ctx ctx.last 1 ["A", "O"]) ∧
          StringAt ctx (c-1) 4 ["ALLE"]) then
      setCur (MetaphAdd st ["L", " "]) (c+2)
    else
      setCur (MetaphAdd st ["L"]) (c+2)
  else
    setCur (MetaphAdd st ["L"]) (c+1)


/-- The `M` case of the main-loop switch of `DoubleMetaphone`. -/
def stepM (ctx : Ctx) (st : MState) (c : Int) : Option MState :=
  setCur (MetaphAdd st ["M"])
    (if (StringAt ctx (c-1) 3 ["UMB"] ∧
          (c+1 = ctx.last ∨ StringAt ctx (c+2) 2 ["ER"])) ∨
        -- 'dumb', 'thumb'
        GetAt ctx (c+1) = 'M' then c+2
     else c+1)


/-- The `N` case of the main-loop switch of `DoubleMetaphone`. -/
def stepN (ctx : Ctx) (st : MState) (c : Int) : Option MState :=
  setCur (MetaphAdd st ["N"]) (if GetAt ctx (c+1) = 'N' then c+2 else c+1)


/-- The `Ñ` case of the main-loop switch of `DoubleMetaphone`. -/
def stepNTilde (ctx : Ctx) (st : MState) (c : Int) : Option MState :=
  setCur (MetaphAdd st ["N"]) (c+1)


/-- The `P` case of the main-loop switch of `DoubleMetaphone`. -/
def stepP (ctx : Ctx) (st : MState) (c : Int) : Option MState :=
  if GetAt ctx (c+1) = 'H' then
    setCur (MetaphAdd st ["F"]) (c+2)
  else
    -- also account for "campbell", "raspberry"
    setCur (MetaphAdd st ["P"])
      (if StringAt ctx (c+1) 1 ["P", "B"] then c+2 else c+1)


/-- The `Q` case of the main-loop switch of `DoubleMetaphone`. -/
def stepQ (ctx : Ctx) (st : MState) (c : Int) : Option MState :=
  setCur (MetaphAdd st ["K"]) (if GetAt ctx (c+1) = 'Q' then c+2 else c+1)


/-- The `R` case of the main-loop switch of `DoubleMetaphone`. -/
def stepR (ctx : Ctx) (st : MState) (c : Int) : Option MState :=
  -- french e.g. 'rogier', but exclude 'hochmeier'
  setCur
    (if c = ctx.last ∧ ¬SlavoGermanic ctx ∧
        StringAt ctx (c-2) 2 ["IE"] ∧
        ¬StringAt ctx (c-4) 2 ["ME", "MA"] then
      MetaphAdd st ["", "R"]
    else MetaphAdd st ["R"]) (if GetAt ctx (c+1) = 'R' then c+2 else c+1)


/-- The `S` case of the main-loop switch of `DoubleMetaphone`. -/
def stepS (ctx : Ctx) (st : MState) (c : Int) : Option MState :=
  -- special cases 'island', 'isle', 'carlisle', 'carlysle'
  if StringAt ctx (c-1) 3 ["ISL", "YSL"] then
    some { st with current := c + 1 }
  -- special case 'sugar-'
  else if c = 0 ∧ StringAt ctx c 5 ["SUGAR"] then
    setCur (MetaphAdd st ["X", "S"]) (c+1)
  else if StringAt ctx c 2 ["SH"] then
    -- germanic
    if StringAt ctx (c+1) 4 ["HEIM", "HOEK", "HOLM", "HOLZ"] then
      setCur (MetaphAdd st ["S"]) (c+2)
    else
      setCur (MetaphAdd st ["X"]) (c+2)
  -- italian & armenian
  else if StringAt ctx c 3 ["SIO", "SIA"] ∨ StringAt ctx c 4 ["SIAN"] then
    setCur
      (if ¬SlavoGermanic ctx then MetaphAdd st ["S", "X"]
       else MetaphAdd st ["S"]) (c+3)
  -- german & anglicisations; also -sz- in slavic
  else if (c = 0 ∧ StringAt ctx (c+1) 1 ["M", "N", "L", "W"]) ∨
      StringAt ctx (c+1) 1 ["Z"] then
    setCur (MetaphAdd st ["S", "X"])
      (if StringAt ctx (c+1) 1 ["Z"] then c+2 else c+1)
  else if StringAt ctx c 2 ["SC"] then
    -- Schlesinger's rule
    if GetAt ctx (c+2) = 'H' then
      -- dutch origin, e.g. 'school', 'schooner'
      if StringAt ctx (c+3) 2 ["OO", "ER", "EN", "UY", "ED", "EM"] then
        -- 'schermerhorn', 'schenker'
        if StringAt ctx (c+3) 2 ["ER", "EN"] then
          setCur (MetaphAdd st ["X", "SK"]) (c+3)
        else
          setCur (MetaphAdd st ["SK"]) (c+3)
      else if c = 0 ∧ ¬IsVowel ctx 3 ∧ GetAt ctx 3 ≠ 'W' then
        setCur (MetaphAdd st ["X", "S"]) (c+3)
      else
        setCur (MetaphAdd st ["X"]) (c+3)
    else if StringAt ctx (c+2) 1 ["I", "E", "Y"] then
      setCur (MetaphAdd st ["S"]) (c+3)
    else
      setCur (MetaphAdd st ["SK"]) (c+3)
  else
    -- french e.g. 'resnais', 'artois'
    setCur
      (if c = ctx.last ∧ StringAt ctx (c-2) 2 ["AI", "OI"] then
        MetaphAdd st ["", "S"]
      else MetaphAdd st ["S"])
      (if StringAt ctx (c+1) 1 ["S", "Z"] then c+2 else c+1)


/-- The `T` case of the main-loop switch of `DoubleMetaphone`. -/
def stepT (ctx : Ctx) (st : MState) (c : Int) : Option MState :=
  if StringAt ctx c 4 ["TION"] then
    setCur (MetaphAdd st ["X"]) (c+3)
  else if StringAt ctx c 3 ["TIA", "TCH"] then
    setCur (MetaphAdd st ["X"]) (c+3)
  else if StringAt ctx c 2 ["TH"] ∨ StringAt ctx c 3 ["TTH"] then
    -- special case 'thomas', 'thames' or germanic
    setCur
      (if StringAt ctx (c+2) 2 ["OM", "AM"] ∨
          StringAt ctx 0 4 ["VAN ", "VON "] ∨ StringAt ctx 0 3 ["SCH"] then
        MetaphAdd st ["T"]
      else MetaphAdd st ["0", "T"]) (c+2)
  else
    setCur (MetaphAdd st ["T"])
      (if StringAt ctx (c+1) 1 ["T", "D"] then c+2 else c+1)


/-- The `V` case of the main-loop switch of `DoubleMetaphone`. -/
def stepV (ctx : Ctx) (st : MState) (c : Int) : Option MState :=
  setCur (MetaphAdd st ["F"]) (if GetAt ctx (c+1) = 'V' then c+2 else c+1)


/-- The `W` case of the main-loop switch of `DoubleMetaphone`. -/
def stepW (ctx : Ctx) (st : MState) (c : Int) : Option MState :=
  -- can also be in middle of word
  if StringAt ctx c 2 ["WR"] then
    setCur (MetaphAdd st ["R"]) (c+2)
  else
    wRest ctx c
      (if c = 0 ∧ (IsVowel ctx (c+1) ∨ StringAt ctx c 2 ["WH"]) then
        -- Wasserman should match Vasserman; Uomo should match Womo
        if IsVowel ctx (c+1) then MetaphAdd st ["A", "F"]
        else MetaphAdd st ["A"]
      else some st)


/-- The `X` case of the main-loop switch of `DoubleMetaphone`. -/
def stepX (ctx : Ctx) (st : MState) (c : Int) : Option MState :=
  -- french e.g. breaux
  setCur
    (if ¬(c = ctx.last ∧
        (StringAt ctx (c-3) 3 ["IAU", "EAU"] ∨
          StringAt ctx (c-2) 2 ["AU", "OU"])) then
      MetaphAdd st ["KS"]
    else some st) (if StringAt ctx (c+1) 1 ["C", "X"] then c+2 else c+1)


/-- The `Z` case of the main-loop switch of `DoubleMetaphone`. -/
def stepZ (ctx : Ctx) (st : MState) (c : Int) : Option MState :=
  -- chinese pinyin e.g. 'zhao'
  if GetAt ctx (c+1) = 'H' then
    setCur (MetaphAdd st ["J"]) (c+2)
  else
    setCur
      (if StringAt ctx (c+1) 2 ["ZO", "ZI", "ZA"] ∨
          (SlavoGermanic ctx ∧ c > 0 ∧ GetAt ctx (c-1) ≠ 'T') then
        MetaphAdd st ["S", "TS"]
      else MetaphAdd st ["S"])
      (if GetAt ctx (c+1) = 'Z' then c+2 else c+1)

/-- One iteration of the main loop of `DoubleMetaphone`: dispatch on
the rune at the cursor to that rune's class (each class's ordered
sub-rules live in its `step…` function above), with unrecognized runes
advancing the cursor by 1 with no emission.  `none` means the emission
helper's contract assertion tripped (never happens; see the no-panic
theorem). -/
def metaphStep (ctx : Ctx) (st : MState) : Option MState :=
  match GetAt ctx st.current with
  | 'A' | 'E' | 'I' | 'O' | 'U' | 'Y' => stepVowel ctx st st.current
  | 'B' => stepB ctx st st.current
  | 'Ç' => stepCCedilla ctx st st.current
  | 'C' => stepC ctx st st.current
  | 'D' => stepD ctx st st.current
  | 'F' => stepF ctx st st.current
  | 'G' => stepG ctx st st.current
  | 'H' => stepH ctx st st.current
  | 'J' => stepJ ctx st st.current
  | 'K' => stepK ctx st st.current
  | 'L' => stepL ctx st st.current
  | 'M' => stepM ctx st st.current
  | 'N' => stepN ctx st st.current
  | 'Ñ' => stepNTilde ctx st st.current
  | 'P' => stepP ctx st st.current
  | 'Q' => stepQ ctx st st.current
  | 'R' => stepR ctx st st.current
  | 'S' => stepS ctx st st.current
  | 'T' => stepT ctx st st.current
  | 'V' => stepV ctx st st.current
  | 'W' => stepW ctx st st.current
  | 'X' => stepX ctx st st.current
  | 'Z' => stepZ ctx st st.current
  | _ =>
      some { st with current := st.current + 1 }

/-- The characters the main-loop `switch` dispatches on: the six
vowels, the twenty consonant letters, `Ç` and `Ñ`.  Any other character
falls to the `default` arm: cursor `+1`, no emission. -/
def dispatchChars : List Char :=
  ['A', 'E', 'I', 'O', 'U', 'Y', 'B', 'Ç', 'C', 'D', 'F', 'G', 'H',
   'J', 'K', 'L', 'M', 'N', 'Ñ', 'P', 'Q', 'R', 'S', 'T', 'V', 'W',
   'X', 'Z']

/-- The main loop of `DoubleMetaphone`: iterate `metaphStep` while the
cursor is within the true word length and at least one buffer is below
`maxlength`.  The Go loop needs no fuel; here `none` on fuel exhaustion
keeps the model honest, and the no-panic theorem shows a fuel of
`len(word)+1` always suffices. -/
def metaphLoop (ctx : Ctx) : Nat → MState → Option MState
  | 0, _ => none
  | fuel+1, st =>
    if st.current < ctx.len ∧
        ((st.primary.length : Int) < ctx.maxlength ∨
          (st.secondary.length : Int) < ctx.maxlength) then
      match metaphStep ctx st with
      | none => none
      | some st' => metaphLoop ctx fuel st'
    else some st

/-- The state at the start of a `DoubleMetaphone` call. -/
def initialState : MState := ⟨0, [], [], false⟩

/-- Builds the call context: uppercase the word, pad with five blanks,
record the original byte length (and `last`) and the cap. -/
def mkCtx (word : String) (ml : Int) : Ctx :=
  { rword := word.data.map goToUpperChar ++ goPad
    len := (word.utf8ByteSize : Int)
    last := (word.utf8ByteSize : Int) - 1
    maxlength := ml }

/-- The whole encoding pass of `DoubleMetaphone`, ending with the final
`MState` (before the final truncation/extraction): empty-word early
return, `maxlength < 1` coercion to 4, initial skip of `GN`/`KN`/`PN`/
`WR`/`PS`, initial `X` pronounced as `S`, then the main loop. -/
def doubleMetaphoneSt (word : String) (maxlength : Int) : Option MState :=
  if word.utf8ByteSize < 1 then some initialState
  else
    let ml := if maxlength < 1 then 4 else maxlength
    let ctx := mkCtx word ml
    -- skip these when at start of word
    let st0 := if StringAt ctx 0 2 ["GN", "KN", "PN", "WR", "PS"] then
        { initialState with current := 1 }
      else initialState
    -- initial 'X' is pronounced 'Z' e.g. 'Xavier'; 'Z' maps to 'S'
    let st1 := if GetAt ctx 0 = 'X' then
        setCur (MetaphAdd st0 ["S"]) (st0.current + 1)
      else some st0
    st1.bind (metaphLoop ctx (word.utf8ByteSize + 1))

/-- Final truncation `metaph[:maxlength]`, applied when the built code
is longer than `maxlength` (codes are ASCII, so Go's byte slicing is
character truncation). -/
def truncate (l : List Char) (ml : Int) : List Char :=
  if (l.length : Int) > ml then l.take ml.toNat else l

/-- `DoubleMetaphone word maxlength` returns the primary and secondary
codes, each truncated to `maxlength` characters; the secondary is empty
unless the `alternate` flag was set during the pass. -/
def DoubleMetaphone (word : String) (maxlength : Int) : String × String :=
  match doubleMetaphoneSt word maxlength with
  | none => ("", "")
  | some st =>
    let ml := if maxlength < 1 then 4 else maxlength
    (⟨truncate st.primary ml⟩,
      if st.alternate then ⟨truncate st.secondary ml⟩ else "")

/-- The final `alternate` flag of an encoding pass (`false` also on the
unreachable assertion branch). -/
def alternateFlag (word : String) (maxlength : Int) : Bool :=
  match doubleMetaphoneSt word maxlength with
  | none => false
  | some st => st.alternate

/-! ## Sound index (convenience layer, `convenience.go`) -/

/-- `MetaphMap`: the code→words multimap and the max length it was
built with.  The Go `map[string][]string` is modelled extensionally as
a total function; a missing key yields `[]` exactly as Go's nil
slice. -/
structure MetaphMap where
  mapper : String → List String
  maxlen : Int

/-- `MMap[k] = append(MMap[k], w)`. -/
def mapAppend (m : String → List String) (k : String) (w : String) :
    String → List String :=
  fun k' => if k' = k then m k ++ [w] else m k'

/-- Processing of one word during `NewMetaphMap` construction: append
it to the bucket of each of its non-empty codes. -/
def addWord (maxLen : Int) (m : String → List String) (word : String) :
    String → List String :=
  let p := DoubleMetaphone word maxLen
  let m1 := if p.1.length > 0 then mapAppend m p.1 word else m
  if p.2.length > 0 then mapAppend m1 p.2 word else m1

/-- `NewMetaphMap`: build the code→words index from a word list. -/
def NewMetaphMap (wordlist : List String) (maxLen : Int) : MetaphMap :=
  { mapper := wordlist.foldl (addWord maxLen) (fun _ => [])
    maxlen := maxLen }

/-- `removeDups`: Go collects the entries into a `map[string]struct{}`
and iterates it, so the output is the input's member set in an
unspecified order with no duplicates; `List.dedup` is the
order-representative used here, and every theorem about it is stated at
the level of membership and duplicate-freedom only. -/
def removeDups (s : List String) : List String := s.dedup

/-- `MatchWord`: encode the query with the index's own `maxlen`, union
the buckets of the non-empty codes, remove duplicates. -/
def MatchWord (metaph : MetaphMap) (word : String) : List String :=
  let p := DoubleMetaphone word metaph.maxlen
  let output := if p.1.length > 0 then metaph.mapper p.1 else []
  let output := if p.2.length > 0 then output ++ metaph.mapper p.2 else output
  removeDups output

/-- The non-empty codes a word contributes to the index (primary first,
then secondary; a code may appear twice when both coincide). -/
def codesOf (word : String) (maxLen : Int) : List String :=
  let p := DoubleMetaphone word maxLen
  (if p.1.length > 0 then [p.1] else []) ++
    (if p.2.length > 0 then [p.2] else [])

/-- The word consisting of the single code point U+212A KELVIN SIGN,
whose Unicode lowercase mapping is the ASCII letter `k`. -/
def kelvinWord : String := ⟨[Char.ofNat 8490]⟩

/-- The possible outputs of the uppercase table (every character it
can move a character to). -/
def upperOut : List Char :=
  ['A', 'B', 'C', 'D', 'E', 'F', 'G', 'H', 'I', 'J', 'K', 'L', 'M',
   'N', 'O', 'P', 'Q', 'R', 'S', 'T', 'U', 'V', 'W', 'X', 'Y', 'Z',
   'Ç', 'Ñ']

/-! ## Theorems -/

/-- The tail of the `W` case always succeeds and leaves the cursor at
least one past `c`, whatever already-successful state it is fed. -/
theorem wRest_spec (ctx : Ctx) (c : Int) (o : Option MState)
    (h : ∃ st1, o = some st1) :
    ∃ st', wRest ctx c o = some st' ∧ c + 1 ≤ st'.current := by
  obtain ⟨st1, rfl⟩ := h
  unfold wRest
  simp only [Option.some_bind]
  split_ifs
  all_goals refine ⟨_, rfl, ?_⟩
  all_goals dsimp only
  all_goals omega

/-- Case-split combinator for the branch lemmas: an `if` of two
successful, cursor-advancing outcomes is itself one. -/
theorem ite_opt_spec {c : Int} {P : Prop} [Decidable P] {a b : Option MState}
    (ha : P → ∃ st', a = some st' ∧ c + 1 ≤ st'.current)
    (hb : ¬P → ∃ st', b = some st' ∧ c + 1 ≤ st'.current) :
    ∃ st', (if P then a else b) = some st' ∧ c + 1 ≤ st'.current := by
  by_cases h : P
  · rw [if_pos h]; exact ha h
  · rw [if_neg h]; exact hb h

/-- Leaf lemma for the branch lemmas: a successful emission followed by
a cursor move to `k ≥ c + 1` is a successful, cursor-advancing
outcome. -/
theorem setCur_spec {o : Option MState} {k c : Int} (h : c + 1 ≤ k)
    (ho : ∃ x, o = some x) :
    ∃ st', setCur o k = some st' ∧ c + 1 ≤ st'.current := by
  obtain ⟨x, rfl⟩ := ho
  exact ⟨_, rfl, h⟩


/-- `stepVowel` always succeeds and advances the cursor by at least one. -/
theorem stepVowel_spec (ctx : Ctx) (st : MState) (c : Int) :
    ∃ st', stepVowel ctx st c = some st' ∧ c + 1 ≤ st'.current := by
  unfold stepVowel
  repeat' first
    | exact wRest_spec ctx c _ ⟨_, rfl⟩
    | exact setCur_spec (by first | omega | (split_ifs <;> omega))
        (by first | exact ⟨_, rfl⟩ | (split_ifs <;> exact ⟨_, rfl⟩))
    | exact ⟨_, rfl, le_refl _⟩
    | refine ite_opt_spec (fun h => ?_) (fun h => ?_)

/-- `stepB` always succeeds and advances the cursor by at least one. -/
theorem stepB_spec (ctx : Ctx) (st : MState) (c : Int) :
    ∃ st', stepB ctx st c = some st' ∧ c + 1 ≤ st'.current := by
  unfold stepB
  repeat' first
    | exact wRest_spec ctx c _ ⟨_, rfl⟩
    | exact setCur_spec (by first | omega | (split_ifs <;> omega))
        (by first | exact ⟨_, rfl⟩ | (split_ifs <;> exact ⟨_, rfl⟩))
    | exact ⟨_, rfl, le_refl _⟩
    | refine ite_opt_spec (fun h => ?_) (fun h => ?_)

/-- `stepCCedilla` always succeeds and advances the cursor by at least one. -/
theorem stepCCedilla_spec (ctx : Ctx) (st : MState) (c : Int) :
    ∃ st', stepCCedilla ctx st c = some st' ∧ c + 1 ≤ st'.current := by
  unfold stepCCedilla
  repeat' first
    | exact wRest_spec ctx c _ ⟨_, rfl⟩
    | exact setCur_spec (by first | omega | (split_ifs <;> omega))
        (by first | exact ⟨_, rfl⟩ | (split_ifs <;> exact ⟨_, rfl⟩))
    | exact ⟨_, rfl, le_refl _⟩
    | refine ite_opt_spec (fun h => ?_) (fun h => ?_)

/-- `stepC` always succeeds and advances the cursor by at least one. -/
theorem stepC_spec (ctx : Ctx) (st : MState) (c : Int) :
    ∃ st', stepC ctx st c = some st' ∧ c + 1 ≤ st'.current := by
  unfold stepC
  repeat' first
    | exact wRest_spec ctx c _ ⟨_, rfl⟩
    | exact setCur_spec (by first | omega | (split_ifs <;> omega))
        (by first | exact ⟨_, rfl⟩ | (split_ifs <;> exact ⟨_, rfl⟩))
    | exact ⟨_, rfl, le_refl _⟩
    | refine ite_opt_spec (fun h => ?_) (fun h => ?_)

/-- `stepD` always succeeds and advances the cursor by at least one. -/
theorem stepD_spec (ctx : Ctx) (st : MState) (c : Int) :
    ∃ st', stepD ctx st c = some st' ∧ c + 1 ≤ st'.current := by
  unfold stepD
  repeat' first
    | exact wRest_spec ctx c _ ⟨_, rfl⟩
    | exact setCur_spec (by first | omega | (split_ifs <;> omega))
        (by first | exact ⟨_, rfl⟩ | (split_ifs <;> exact ⟨_, rfl⟩))
    | exact ⟨_, rfl, le_refl _⟩
    | refine ite_opt_spec (fun h => ?_) (fun h => ?_)

/-- `stepF` always succeeds and advances the cursor by at least one. -/
theorem stepF_spec (ctx : Ctx) (st : MState) (c : Int) :
    ∃ st', stepF ctx st c = some st' ∧ c + 1 ≤ st'.current := by
  unfold stepF
  repeat' first
    | exact wRest_spec ctx c _ ⟨_, rfl⟩
    | exact setCur_spec (by first | omega | (split_ifs <;> omega))
        (by first | exact ⟨_, rfl⟩ | (split_ifs <;> exact ⟨_, rfl⟩))
    | exact ⟨_, rfl, le_refl _⟩
    | refine ite_opt_spec (fun h => ?_) (fun h => ?_)

/-- `stepG` always succeeds and advances the cursor by at least one. -/
theorem stepG_spec (ctx : Ctx) (st : MState) (c : Int) :
    ∃ st', stepG ctx st c = some st' ∧ c + 1 ≤ st'.current := by
  unfold stepG
  repeat' first
    | exact wRest_spec ctx c _ ⟨_, rfl⟩
    | exact setCur_spec (by first | omega | (split_ifs <;> omega))
        (by first | exact ⟨_, rfl⟩ | (split_ifs <;> exact ⟨_, rfl⟩))
    | exact ⟨_, rfl, le_refl _⟩
    | refine ite_opt_spec (fun h => ?_) (fun h => ?_)

/-- `stepH` always succeeds and advances the cursor by at least one. -/
theorem stepH_spec (ctx : Ctx) (st : MState) (c : Int) :
    ∃ st', stepH ctx st c = some st' ∧ c + 1 ≤ st'.current := by
  unfold stepH
  repeat' first
    | exact wRest_spec ctx c _ ⟨_, rfl⟩
    | exact setCur_spec (by first | omega | (split_ifs <;> omega))
        (by first | exact ⟨_, rfl⟩ | (split_ifs <;> exact ⟨_, rfl⟩))
    | exact ⟨_, rfl, le_refl _⟩
    | refine ite_opt_spec (fun h => ?_) (fun h => ?_)

/-- `stepJ` always succeeds and advances the cursor by at least one. -/
theorem stepJ_spec (ctx : Ctx) (st : MState) (c : Int) :
    ∃ st', stepJ ctx st c = some st' ∧ c + 1 ≤ st'.current := by
  unfold stepJ
  repeat' first
    | exact wRest_spec ctx c _ ⟨_, rfl⟩
    | exact setCur_spec (by first | omega | (split_ifs <;> omega))
        (by first | exact ⟨_, rfl⟩ | (split_ifs <;> exact ⟨_, rfl⟩))
    | exact ⟨_, rfl, le_refl _⟩
    | refine ite_opt_spec (fun h => ?_) (fun h => ?_)

/-- `stepK` always succeeds and advances the cursor by at least one. -/
theorem stepK_spec (ctx : Ctx) (st : MState) (c : Int) :
    ∃ st', stepK ctx st c = some st' ∧ c + 1 ≤ st'.current := by
  unfold stepK
  repeat' first
    | exact wRest_spec ctx c _ ⟨_, rfl⟩
    | exact setCur_spec (by first | omega | (split_ifs <;> omega))
        (by first | exact ⟨_, rfl⟩ | (split_ifs <;> exact ⟨_, rfl⟩))
    | exact ⟨_, rfl, le_refl _⟩
    | refine ite_opt_spec (fun h => ?_) (fun h => ?_)

/-- `stepL` always succeeds and advances the cursor by at least one. -/
theorem stepL_spec (ctx : Ctx) (st : MState) (c : Int) :
    ∃ st', stepL ctx st c = some st' ∧ c + 1 ≤ st'.current := by
  unfold stepL
  repeat' first
    | exact wRest_spec ctx c _ ⟨_, rfl⟩
    | exact setCur_spec (by first | omega | (split_ifs <;> omega))
        (by first | exact ⟨_, rfl⟩ | (split_ifs <;> exact ⟨_, rfl⟩))
    | exact ⟨_, rfl, le_refl _⟩
    | refine ite_opt_spec (fun h => ?_) (fun h => ?_)

/-- `stepM` always succeeds and advances the cursor by at least one. -/
theorem stepM_spec (ctx : Ctx) (st : MState) (c : Int) :
    ∃ st', stepM ctx st c = some st' ∧ c + 1 ≤ st'.current := by
  unfold stepM
  repeat' first
    | exact wRest_spec ctx c _ ⟨_, rfl⟩
    | exact setCur_spec (by first | omega | (split_ifs <;> omega))
        (by first | exact ⟨_, rfl⟩ | (split_ifs <;> exact ⟨_, rfl⟩))
    | exact ⟨_, rfl, le_refl _⟩
    | refine ite_opt_spec (fun h => ?_) (fun h => ?_)

/-- `stepN` always succeeds and advances the cursor by at least one. -/
theorem stepN_spec (ctx : Ctx) (st : MState) (c : Int) :
    ∃ st', stepN ctx st c = some st' ∧ c + 1 ≤ st'.current := by
  unfold stepN
  repeat' first
    | exact wRest_spec ctx c _ ⟨_, rfl⟩
    | exact setCur_spec (by first | omega | (split_ifs <;> omega))
        (by first | exact ⟨_, rfl⟩ | (split_ifs <;> exact ⟨_, rfl⟩))
    | exact ⟨_, rfl, le_refl _⟩
    | refine ite_opt_spec (fun h => ?_) (fun h => ?_)

/-- `stepNTilde` always succeeds and advances the cursor by at least one. -/
theorem stepNTilde_spec (ctx : Ctx) (st : MState) (c : Int) :
    ∃ st', stepNTilde ctx st c = some st' ∧ c + 1 ≤ st'.current := by
  unfold stepNTilde
  repeat' first
    | exact wRest_spec ctx c _ ⟨_, rfl⟩
    | exact setCur_spec (by first | omega | (split_ifs <;> omega))
        (by first | exact ⟨_, rfl⟩ | (split_ifs <;> exact ⟨_, rfl⟩))
    | exact ⟨_, rfl, le_refl _⟩
    | refine ite_opt_spec (fun h => ?_) (fun h => ?_)

/-- `stepP` always succeeds and advances the cursor by at least one. -/
theorem stepP_spec (ctx : Ctx) (st : MState) (c : Int) :
    ∃ st', stepP ctx st c = some st' ∧ c + 1 ≤ st'.current := by
  unfold stepP
  repeat' first
    | exact wRest_spec ctx c _ ⟨_, rfl⟩
    | exact setCur_spec (by first | omega | (split_ifs <;> omega))
        (by first | exact ⟨_, rfl⟩ | (split_ifs <;> exact ⟨_, rfl⟩))
    | exact ⟨_, rfl, le_refl _⟩
    | refine ite_opt_spec (fun h => ?_) (fun h => ?_)

/-- `stepQ` always succeeds and advances the cursor by at least one. -/
theorem stepQ_spec (ctx : Ctx) (st : MState) (c : Int) :
    ∃ st', stepQ ctx st c = some st' ∧ c + 1 ≤ st'.current := by
  unfold stepQ
  repeat' first
    | exact wRest_spec ctx c _ ⟨_, rfl⟩
    | exact setCur_spec (by first | omega | (split_ifs <;> omega))
        (by first | exact ⟨_, rfl⟩ | (split_ifs <;> exact ⟨_, rfl⟩))
    | exact ⟨_, rfl, le_refl _⟩
    | refine ite_opt_spec (fun h => ?_) (fun h => ?_)

/-- `stepR` always succeeds and advances the cursor by at least one. -/
theorem stepR_spec (ctx : Ctx) (st : MState) (c : Int) :
    ∃ st', stepR ctx st c = some st' ∧ c + 1 ≤ st'.current := by
  unfold stepR
  repeat' first
    | exact wRest_spec ctx c _ ⟨_, rfl⟩
    | exact setCur_spec (by first | omega | (split_ifs <;> omega))
        (by first | exact ⟨_, rfl⟩ | (split_ifs <;> exact ⟨_, rfl⟩))
    | exact ⟨_, rfl, le_refl _⟩
    | refine ite_opt_spec (fun h => ?_) (fun h => ?_)

/-- `stepS` always succeeds and advances the cursor by at least one. -/
theorem stepS_spec (ctx : Ctx) (st : MState) (c : Int) :
    ∃ st', stepS ctx st c = some st' ∧ c + 1 ≤ st'.current := by
  unfold stepS
  repeat' first
    | exact wRest_spec ctx c _ ⟨_, rfl⟩
    | exact setCur_spec (by first | omega | (split_ifs <;> omega))
        (by first | exact ⟨_, rfl⟩ | (split_ifs <;> exact ⟨_, rfl⟩))
    | exact ⟨_, rfl, le_refl _⟩
    | refine ite_opt_spec (fun h => ?_) (fun h => ?_)

/-- `stepT` always succeeds and advances the cursor by at least one. -/
theorem stepT_spec (ctx : Ctx) (st : MState) (c : Int) :
    ∃ st', stepT ctx st c = some st' ∧ c + 1 ≤ st'.current := by
  unfold stepT
  repeat' first
    | exact wRest_spec ctx c _ ⟨_, rfl⟩
    | exact setCur_spec (by first | omega | (split_ifs <;> omega))
        (by first | exact ⟨_, rfl⟩ | (split_ifs <;> exact ⟨_, rfl⟩))
    | exact ⟨_, rfl, le_refl _⟩
    | refine ite_opt_spec (fun h => ?_) (fun h => ?_)

/-- `stepV` always succeeds and advances the cursor by at least one. -/
theorem stepV_spec (ctx : Ctx) (st : MState) (c : Int) :
    ∃ st', stepV ctx st c = some st' ∧ c + 1 ≤ st'.current := by
  unfold stepV
  repeat' first
    | exact wRest_spec ctx c _ ⟨_, rfl⟩
    | exact setCur_spec (by first | omega | (split_ifs <;> omega))
        (by first | exact ⟨_, rfl⟩ | (split_ifs <;> exact ⟨_, rfl⟩))
    | exact ⟨_, rfl, le_refl _⟩
    | refine ite_opt_spec (fun h => ?_) (fun h => ?_)

/-- `stepW` always succeeds and advances the cursor by at least one. -/
theorem stepW_spec (ctx : Ctx) (st : MState) (c : Int) :
    ∃ st', stepW ctx st c = some st' ∧ c + 1 ≤ st'.current := by
  unfold stepW
  repeat' first
    | exact wRest_spec ctx c _
        (by first | exact ⟨_, rfl⟩ | (split_ifs <;> exact ⟨_, rfl⟩))
    | exact setCur_spec (by first | omega | (split_ifs <;> omega))
        (by first | exact ⟨_, rfl⟩ | (split_ifs <;> exact ⟨_, rfl⟩))
    | exact ⟨_, rfl, le_refl _⟩
    | refine ite_opt_spec (fun h => ?_) (fun h => ?_)

/-- `stepX` always succeeds and advances the cursor by at least one. -/
theorem stepX_spec (ctx : Ctx) (st : MState) (c : Int) :
    ∃ st', stepX ctx st c = some st' ∧ c + 1 ≤ st'.current := by
  unfold stepX
  repeat' first
    | exact wRest_spec ctx c _ ⟨_, rfl⟩
    | exact setCur_spec (by first | omega | (split_ifs <;> omega))
        (by first | exact ⟨_, rfl⟩ | (split_ifs <;> exact ⟨_, rfl⟩))
    | exact ⟨_, rfl, le_refl _⟩
    | refine ite_opt_spec (fun h => ?_) (fun h => ?_)

/-- `stepZ` always succeeds and advances the cursor by at least one. -/
theorem stepZ_spec (ctx : Ctx) (st : MState) (c : Int) :
    ∃ st', stepZ ctx st c = some st' ∧ c + 1 ≤ st'.current := by
  unfold stepZ
  repeat' first
    | exact wRest_spec ctx c _ ⟨_, rfl⟩
    | exact setCur_spec (by first | omega | (split_ifs <;> omega))
        (by first | exact ⟨_, rfl⟩ | (split_ifs <;> exact ⟨_, rfl⟩))
    | exact ⟨_, rfl, le_refl _⟩
    | refine ite_opt_spec (fun h => ?_) (fun h => ?_)

set_option maxHeartbeats 4000000 in
/-- Every loop iteration succeeds (no arity assertion can trip, since
every emission passes one or two tokens) and advances the cursor by at
least one. -/
theorem metaphStep_spec (ctx : Ctx) (st : MState) :
    ∃ st', metaphStep ctx st = some st' ∧ st.current + 1 ≤ st'.current := by
  unfold metaphStep
  split
  all_goals first
    | exact stepVowel_spec ctx st st.current
    | exact stepB_spec ctx st st.current
    | exact stepCCedilla_spec ctx st st.current
    | exact stepC_spec ctx st st.current
    | exact stepD_spec ctx st st.current
    | exact stepF_spec ctx st st.current
    | exact stepG_spec ctx st st.current
    | exact stepH_spec ctx st st.current
    | exact stepJ_spec ctx st st.current
    | exact stepK_spec ctx st st.current
    | exact stepL_spec ctx st st.current
    | exact stepM_spec ctx st st.current
    | exact stepN_spec ctx st st.current
    | exact stepNTilde_spec ctx st st.current
    | exact stepP_spec ctx st st.current
    | exact stepQ_spec ctx st st.current
    | exact stepR_spec ctx st st.current
    | exact stepS_spec ctx st st.current
    | exact stepT_spec ctx st st.current
    | exact stepV_spec ctx st st.current
    | exact stepW_spec ctx st st.current
    | exact stepX_spec ctx st st.current
    | exact stepZ_spec ctx st st.current
    | exact ⟨_, rfl, le_refl _⟩

/-- With fuel exceeding the distance from the cursor to the end of the
word, the main loop always returns a final state; that state's cursor
is at least the starting cursor, and the loop-exit condition holds for
it: the cursor has reached the word's true length, or both buffers have
reached `maxlength`. -/
theorem metaphLoop_spec (ctx : Ctx) :
    ∀ (fuel : Nat) (st : MState), (ctx.len - st.current).toNat < fuel →
      ∃ st', metaphLoop ctx fuel st = some st' ∧ st.current ≤ st'.current ∧
        (ctx.len ≤ st'.current ∨
          (ctx.maxlength ≤ (st'.primary.length : Int) ∧
            ctx.maxlength ≤ (st'.secondary.length : Int))) := by
  intro fuel
  induction fuel with
  | zero => intro st h; exact absurd h (by omega)
  | succ fuel ih =>
      intro st h
      by_cases hc : st.current < ctx.len ∧
          ((st.primary.length : Int) < ctx.maxlength ∨
            (st.secondary.length : Int) < ctx.maxlength)
      · obtain ⟨st1, hstep, hadv⟩ := metaphStep_spec ctx st
        have hlt : (ctx.len - st1.current).toNat < fuel := by omega
        obtain ⟨st', hloop, hmono, hexit⟩ := ih st1 hlt
        refine ⟨st', ?_, by omega, hexit⟩
        rw [metaphLoop, if_pos hc, hstep]
        exact hloop
      · refine ⟨st, ?_, le_refl _, by push_neg at hc; omega⟩
        rw [metaphLoop, if_neg hc]

/-- Any successful loop run, whatever the fuel, leaves the cursor at or
beyond where it started, and stops only with the exit condition
satisfied. -/
theorem metaphLoop_post (ctx : Ctx) :
    ∀ (fuel : Nat) (st st' : MState), metaphLoop ctx fuel st = some st' →
      st.current ≤ st'.current ∧
        (ctx.len ≤ st'.current ∨
          (ctx.maxlength ≤ (st'.primary.length : Int) ∧
            ctx.maxlength ≤ (st'.secondary.length : Int))) := by
  intro fuel
  induction fuel with
  | zero => intro st st' h; exact absurd h (by simp [metaphLoop])
  | succ fuel ih =>
      intro st st' h
      by_cases hc : st.current < ctx.len ∧
          ((st.primary.length : Int) < ctx.maxlength ∨
            (st.secondary.length : Int) < ctx.maxlength)
      · rw [metaphLoop, if_pos hc] at h
        obtain ⟨st1, hstep, hadv⟩ := metaphStep_spec ctx st
        rw [hstep] at h
        have := ih st1 st' h
        exact ⟨by omega, this.2⟩
      · rw [metaphLoop, if_neg hc] at h
        cases h
        exact ⟨le_refl _, by push_neg at hc; omega⟩

/-- The produced strings are the buffer contents, so their length is
the buffer length. -/
theorem length_mk_eq (l : List Char) : (String.mk l).length = l.length := rfl

/-- Truncation really bounds the length by `ml` (for `ml ≥ 0`). -/
theorem length_truncate_le (l : List Char) (ml : Int) (h : 0 ≤ ml) :
    ((truncate l ml).length : Int) ≤ ml := by
  unfold truncate
  split
  · simp only [List.length_take]
    omega
  · omega

/-- Feeding any successful pre-loop outcome into the loop with enough
fuel yields a final state. -/
theorem bind_loop_isSome (ctx : Ctx) (fuel : Nat) (o : Option MState)
    (ho : ∃ v, o = some v ∧ (ctx.len - v.current).toNat < fuel) :
    ∃ st, o.bind (metaphLoop ctx fuel) = some st := by
  obtain ⟨v, rfl, hv⟩ := ho
  obtain ⟨st', h, -, -⟩ := metaphLoop_spec ctx fuel v hv
  exact ⟨st', by rw [Option.some_bind]; exact h⟩

/-- The whole encoding pass always returns a final state: the fuel
`len(word)+1` suffices (each iteration advances the cursor), and the
emission helper's assertion never trips. -/
theorem doubleMetaphoneSt_isSome (w : String) (L : Int) :
    ∃ st, doubleMetaphoneSt w L = some st := by
  unfold doubleMetaphoneSt
  split
  · exact ⟨_, rfl⟩
  · dsimp only
    repeat' split
    all_goals refine bind_loop_isSome _ _ _ ⟨_, rfl, ?_⟩
    all_goals simp only [mkCtx, initialState, MetaphAdd1]
    all_goals try dsimp only
    all_goals omega

/-- C8: the encoder's cursor never decreases — every successful loop
iteration advances it by at least 1 (so the pass terminates) — and the
encoding loop exits only when the cursor has reached the word's true
length or both buffers have reached the configured maximum length. -/
theorem cursor_monotone_and_loop_exit :
    (∀ (ctx : Ctx) (st st' : MState),
      metaphStep ctx st = some st' → st.current < st'.current) ∧
    (∀ (ctx : Ctx) (fuel : Nat) (st st' : MState),
      metaphLoop ctx fuel st = some st' →
        st.current ≤ st'.current ∧
          (ctx.len ≤ st'.current ∨
            (ctx.maxlength ≤ (st'.primary.length : Int) ∧
              ctx.maxlength ≤ (st'.secondary.length : Int)))) := by
  constructor
  · intro ctx st st' h
    obtain ⟨st2, h2, hadv⟩ := metaphStep_spec ctx st
    rw [h] at h2
    injection h2 with h3
    subst h3
    omega
  · exact fun ctx fuel st st' h => metaphLoop_post ctx fuel st st' h

/-- Witness for C8: one concrete step (word "ab", cursor at the initial
state) advances the cursor from 0 to 1; a full loop run with fuel 3
ends at cursor 2 with the exit condition satisfied. -/
theorem cursor_monotone_and_loop_exit_witness :
    initialState.current < (⟨1, ['A'], ['A'], false⟩ : MState).current ∧
      (initialState.current ≤ (⟨2, ['A', 'P'], ['A', 'P'], false⟩ : MState).current ∧
        ((mkCtx "ab" 4).len ≤ (⟨2, ['A', 'P'], ['A', 'P'], false⟩ : MState).current ∨
          ((mkCtx "ab" 4).maxlength ≤
              (((⟨2, ['A', 'P'], ['A', 'P'], false⟩ : MState)).primary.length : Int) ∧
            (mkCtx "ab" 4).maxlength ≤
              (((⟨2, ['A', 'P'], ['A', 'P'], false⟩ : MState)).secondary.length : Int)))) :=
  ⟨cursor_monotone_and_loop_exit.1 (mkCtx "ab" 4) initialState _ (by decide),
    cursor_monotone_and_loop_exit.2 (mkCtx "ab" 4) 3 initialState _ (by decide)⟩

/-- C9: `DoubleMetaphone` never raises an error: `GetAt`, `IsVowel` and
`StringAt` return a sentinel (`rune(0)` / `false`) for every
out-of-range index or window instead of failing; the emission helper's
wrong-arity assertion trips exactly on zero or more than two tokens;
and the whole pass never trips it (every call site passes one or two
tokens) — the run always produces a final state. -/
theorem no_error_and_sentinels :
    (∀ (ctx : Ctx) (i : Int), i < 0 ∨ i ≥ (ctx.rword.length : Int) →
      GetAt ctx i = Char.ofNat 0) ∧
    (∀ (ctx : Ctx) (i : Int), i < 0 ∨ i ≥ (ctx.rword.length : Int) →
      IsVowel ctx i = false) ∧
    (∀ (ctx : Ctx) (start length : Int) (cands : List String),
      start < 0 ∨ start + length ≥ (ctx.rword.length : Int) →
      StringAt ctx start length cands = false) ∧
    (∀ (st : MState) (toks : List String),
      toks.length = 0 ∨ 2 < toks.length → MetaphAdd st toks = none) ∧
    (∀ (w : String) (L : Int), (doubleMetaphoneSt w L).isSome = true) := by
  refine ⟨?_, ?_, ?_, ?_, ?_⟩
  · intro ctx i h
    unfold GetAt
    rw [if_pos h]
  · intro ctx i h
    unfold IsVowel
    rw [if_pos h]
  · intro ctx start length cands h
    unfold StringAt
    rw [if_pos h]
  · intro st toks h
    rcases toks with _ | ⟨a, _ | ⟨b, _ | ⟨c, t⟩⟩⟩
    · rfl
    · simp at h
    · simp at h
    · rfl
  · intro w L
    obtain ⟨st, h⟩ := doubleMetaphoneSt_isSome w L
    rw [h]
    rfl

/-- Witness for C9 at concrete out-of-range inputs, a concrete
zero-token call, and a concrete full run. -/
theorem no_error_and_sentinels_witness :
    GetAt (mkCtx "ab" 4) (-1) = Char.ofNat 0 ∧
      IsVowel (mkCtx "ab" 4) 99 = false ∧
      StringAt (mkCtx "ab" 4) 5 3 ["ABC"] = false ∧
      MetaphAdd initialState [] = none ∧
      (doubleMetaphoneSt "ab" 4).isSome = true :=
  ⟨no_error_and_sentinels.1 (mkCtx "ab" 4) (-1) (by decide),
    no_error_and_sentinels.2.1 (mkCtx "ab" 4) 99 (by decide),
    no_error_and_sentinels.2.2.1 (mkCtx "ab" 4) 5 3 ["ABC"] (by decide),
    no_error_and_sentinels.2.2.2.1 initialState [] (by decide),
    no_error_and_sentinels.2.2.2.2 "ab" 4⟩

/-- On a character outside the dispatch set, an iteration is the
`default` arm: advance the cursor by 1, emit nothing. -/
theorem metaphStep_default (ctx : Ctx) (st : MState)
    (h : GetAt ctx st.current ∉ dispatchChars) :
    metaphStep ctx st = some { st with current := st.current + 1 } := by
  unfold metaphStep
  split
  all_goals first
    | rfl
    | (rename_i heq; rw [heq] at h; exact absurd (by decide) h)

/-- `GetAt` returns the sentinel or an element of the padded word. -/
theorem GetAt_mem_or_zero (ctx : Ctx) (i : Int) :
    GetAt ctx i = Char.ofNat 0 ∨ GetAt ctx i ∈ ctx.rword := by
  unfold GetAt
  split
  · exact Or.inl rfl
  · rename_i hg
    push_neg at hg
    have hlt : i.toNat < ctx.rword.length := by omega
    right
    rw [List.getD_eq_getElem _ _ hlt]
    exact List.getElem_mem hlt

/-- If a `StringAt` test succeeds, one of the candidates equals the
window it inspected. -/
theorem StringAt_eq_target (ctx : Ctx) (start length : Int)
    (cands : List String) (h : StringAt ctx start length cands = true) :
    ∃ cand ∈ cands,
      cand.data = (ctx.rword.drop start.toNat).take length.toNat := by
  unfold StringAt at h
  split at h
  · exact absurd h (by simp)
  · simp only [List.any_eq_true, beq_iff_eq] at h
    exact h

/-- If no character of the word uppercases into the dispatch set, no
dispatch character other than the blank occurs in the padded word. -/
theorem not_mem_rword (w : String) (ml : Int)
    (h : ∀ c ∈ w.data, goToUpperChar c ∉ dispatchChars)
    (ch : Char) (hch : ch ∈ dispatchChars) (hne : ch ≠ ' ') :
    ch ∉ (mkCtx w ml).rword := by
  intro hmem
  have hr : (mkCtx w ml).rword = w.data.map goToUpperChar ++ goPad := rfl
  rw [hr] at hmem
  rcases List.mem_append.1 hmem with hm | hp
  · obtain ⟨c, hc, he⟩ := List.mem_map.1 hm
    exact h c hc (he ▸ hch)
  · apply hne
    simpa [goPad] using hp

/-- If no character of the word uppercases into the dispatch set,
every position (in-range, pad, or out-of-range) reads a non-dispatch
character. -/
theorem getAt_not_dispatch (w : String) (ml : Int)
    (h : ∀ c ∈ w.data, goToUpperChar c ∉ dispatchChars) :
    ∀ i, GetAt (mkCtx w ml) i ∉ dispatchChars := by
  intro i hd
  rcases GetAt_mem_or_zero (mkCtx w ml) i with h0 | hmem
  · rw [h0] at hd
    exact absurd hd (by decide)
  · have hne : GetAt (mkCtx w ml) i ≠ ' ' := by
      intro he
      rw [he] at hd
      exact absurd hd (by decide)
    exact not_mem_rword w ml h _ hd hne hmem

/-- Under the same hypothesis, the loop changes nothing but the
cursor. -/
theorem metaphLoop_noop (ctx : Ctx)
    (H : ∀ i, GetAt ctx i ∉ dispatchChars) :
    ∀ (fuel : Nat) (st : MState), (ctx.len - st.current).toNat < fuel →
      ∃ st', metaphLoop ctx fuel st = some st' ∧
        st'.primary = st.primary ∧ st'.secondary = st.secondary ∧
        st'.alternate = st.alternate := by
  intro fuel
  induction fuel with
  | zero => intro st h; exact absurd h (by omega)
  | succ fuel ih =>
      intro st h
      by_cases hc : st.current < ctx.len ∧
          ((st.primary.length : Int) < ctx.maxlength ∨
            (st.secondary.length : Int) < ctx.maxlength)
      · have hstep := metaphStep_default ctx st (H st.current)
        obtain ⟨st', hloop, hp, hs, ha⟩ :=
          ih { st with current := st.current + 1 }
            ((by omega : (ctx.len - (st.current + 1)).toNat < fuel))
        refine ⟨st', ?_, hp, hs, ha⟩
        rw [metaphLoop, if_pos hc, hstep]
        exact hloop
      · exact ⟨st, by rw [metaphLoop, if_neg hc], rfl, rfl, rfl⟩

/-- Truncating an empty buffer yields an empty buffer. -/
theorem truncate_nil (ml : Int) : truncate [] ml = [] := by
  unfold truncate
  split <;> simp

/-- C10: for the empty word, and for every word none of whose
characters is matched by any dispatch rule (after uppercasing, no
character is a vowel `A`/`E`/`I`/`O`/`U`/`Y`, a consonant letter, `Ç`
or `Ñ` — e.g. a word of only digits or punctuation), `DoubleMetaphone`
returns two empty strings for any max length; such characters emit
nothing and the cursor advances over them by the default step of 1. -/
theorem nonmatching_chars_yield_empty (w : String) (L : Int)
    (h : ∀ c ∈ w.data, goToUpperChar c ∉ dispatchChars) :
    DoubleMetaphone w L = ("", "") ∧
      (∀ st : MState,
        metaphStep (mkCtx w (if L < 1 then 4 else L)) st =
          some { st with current := st.current + 1 }) := by
  have H := getAt_not_dispatch w (if L < 1 then 4 else L) h
  have hrun : ∃ st, doubleMetaphoneSt w L = some st ∧
      st.primary = [] ∧ st.secondary = [] ∧ st.alternate = false := by
    unfold doubleMetaphoneSt
    by_cases hlen : w.utf8ByteSize < 1
    · rw [if_pos hlen]
      exact ⟨initialState, rfl, rfl, rfl, rfl⟩
    · rw [if_neg hlen]
      dsimp only
      have hSA : ¬(StringAt (mkCtx w (if L < 1 then 4 else L)) 0 2
          ["GN", "KN", "PN", "WR", "PS"] = true) := by
        intro hx
        obtain ⟨cand, hm, he⟩ := StringAt_eq_target _ _ _ _ hx
        fin_cases hm
        · exact not_mem_rword w _ h 'G' (by decide) (by decide)
            (List.mem_of_mem_drop (List.mem_of_mem_take (by rw [← he]; decide)))
        · exact not_mem_rword w _ h 'K' (by decide) (by decide)
            (List.mem_of_mem_drop (List.mem_of_mem_take (by rw [← he]; decide)))
        · exact not_mem_rword w _ h 'P' (by decide) (by decide)
            (List.mem_of_mem_drop (List.mem_of_mem_take (by rw [← he]; decide)))
        · exact not_mem_rword w _ h 'W' (by decide) (by decide)
            (List.mem_of_mem_drop (List.mem_of_mem_take (by rw [← he]; decide)))
        · exact not_mem_rword w _ h 'P' (by decide) (by decide)
            (List.mem_of_mem_drop (List.mem_of_mem_take (by rw [← he]; decide)))
      have hX : ¬(GetAt (mkCtx w (if L < 1 then 4 else L)) 0 = 'X') := by
        intro hx
        rcases GetAt_mem_or_zero (mkCtx w (if L < 1 then 4 else L)) 0 with h0 | hmem
        · rw [hx] at h0
          exact absurd h0 (by decide)
        · rw [hx] at hmem
          exact not_mem_rword w _ h 'X' (by decide) (by decide) hmem
      rw [if_neg hSA, if_neg hX]
      obtain ⟨st', hloop, hp, hs, ha⟩ :=
        metaphLoop_noop (mkCtx w (if L < 1 then 4 else L)) H
          (w.utf8ByteSize + 1) initialState
          (by simp [mkCtx, initialState]; try omega)
      exact ⟨st', by rw [Option.some_bind]; exact hloop, hp, hs, ha⟩
  obtain ⟨st, hrun, hp, hs, ha⟩ := hrun
  refine ⟨?_, fun st => metaphStep_default _ st (H _)⟩
  unfold DoubleMetaphone
  rw [hrun]
  simp only [hp, hs, ha, truncate_nil, if_neg Bool.false_ne_true]
  try rfl

/-- Witness for C10: the empty word and a word of digits, blanks and
punctuation. -/
theorem nonmatching_chars_yield_empty_witness :
    DoubleMetaphone "" 4 = ("", "") ∧ DoubleMetaphone "12 !?" 7 = ("", "") :=
  ⟨(nonmatching_chars_yield_empty "" 4 (by decide)).1,
    (nonmatching_chars_yield_empty "12 !?" 7 (by decide)).1⟩

/-- C1: with max length 4, `DoubleMetaphone "knewmoanya" 4` and
`DoubleMetaphone "pneumonia" 4` both return primary `"NMN"`; with max
length 6 both words still return primary `"NMN"` and an empty secondary
code (no rule diverges for either word). -/
theorem knewmoanya_pneumonia_codes :
    DoubleMetaphone "knewmoanya" 4 = ("NMN", "") ∧
    DoubleMetaphone "pneumonia" 4 = ("NMN", "") ∧
    DoubleMetaphone "knewmoanya" 6 = ("NMN", "") ∧
    DoubleMetaphone "pneumonia" 6 = ("NMN", "") := by
  decide

/-- C2: for every word and every `maxLength ≥ 1`, both returned codes
have length at most `maxLength`. -/
theorem codes_length_le (w : String) (L : Int) (h : 1 ≤ L) :
    ((DoubleMetaphone w L).1.length : Int) ≤ L ∧
      ((DoubleMetaphone w L).2.length : Int) ≤ L := by
  have h0 : 0 ≤ L := by omega
  have hml : (if L < 1 then (4 : Int) else L) = L := by
    rw [if_neg]; omega
  unfold DoubleMetaphone
  cases doubleMetaphoneSt w L with
  | none => simpa using h0
  | some st =>
      simp only [hml, length_mk_eq]
      refine ⟨length_truncate_le _ _ h0, ?_⟩
      split
      · exact length_truncate_le _ _ h0
      · simpa using h0

/-- Witness for C2 at a concrete input. -/
theorem codes_length_le_witness :
    ((DoubleMetaphone "knewmoanya" 2).1.length : Int) ≤ 2 ∧
      ((DoubleMetaphone "knewmoanya" 2).2.length : Int) ≤ 2 :=
  codes_length_le "knewmoanya" 2 (by norm_num)

/-- C3: the secondary code is non-empty only if the alternate-branch
flag was set during the pass (i.e. some rule fired a divergent
emission); moreover a single-token (non-divergent) emission never
changes the flag, so a word for which no divergent rule fires always
yields an empty secondary. -/
theorem secondary_nonempty_only_if_divergence :
    (∀ (w : String) (L : Int),
      (DoubleMetaphone w L).2 ≠ "" → alternateFlag w L = true) ∧
    (∀ (st : MState) (m : String) (st' : MState),
      MetaphAdd st [m] = some st' → st'.alternate = st.alternate) := by
  constructor
  · intro w L h
    unfold DoubleMetaphone at h
    unfold alternateFlag
    cases hst : doubleMetaphoneSt w L with
    | none => rw [hst] at h; simp at h
    | some st =>
        rw [hst] at h
        simp only at h
        by_cases ha : st.alternate
        · exact ha
        · rw [if_neg ha] at h; exact absurd rfl h
  · intro st m st' h
    simp only [MetaphAdd] at h
    cases h
    rfl

/-- Witness for C3 at a concrete input: "smith" diverges
(`("SM0", "XMT")`), and its run sets the flag. -/
theorem secondary_nonempty_only_if_divergence_witness :
    alternateFlag "smith" 4 = true :=
  secondary_nonempty_only_if_divergence.1 "smith" 4 (by decide)

/-- C6: `maxLength < 1` is silently coerced to the canonical default 4:
the returned pair equals that of `maxLength = 4`. -/
theorem maxlength_lt_one_coerced (w : String) (L : Int) (h : L < 1) :
    DoubleMetaphone w L = DoubleMetaphone w 4 := by
  have e : (if L < 1 then (4 : Int) else L) = 4 := if_pos h
  have e4 : (if (4 : Int) < 1 then (4 : Int) else 4) = 4 := by norm_num
  unfold DoubleMetaphone doubleMetaphoneSt
  rw [e, e4]

/-- Witness for C6 at concrete inputs (`maxLength = 0` and `-5`). -/
theorem maxlength_lt_one_coerced_witness :
    DoubleMetaphone "pneumonia" 0 = DoubleMetaphone "pneumonia" 4 ∧
      DoubleMetaphone "pneumonia" (-5) = DoubleMetaphone "pneumonia" 4 :=
  ⟨maxlength_lt_one_coerced "pneumonia" 0 (by norm_num),
    maxlength_lt_one_coerced "pneumonia" (-5) (by norm_num)⟩

/-- A string is non-empty exactly when its length is positive (Go
tests `len(s) > 0`). -/
theorem string_ne_empty_iff_length_pos (s : String) :
    s ≠ "" ↔ s.length > 0 := by
  cases s with
  | mk l =>
    cases l with
    | nil => simp [String.length]
    | cons c t =>
        constructor
        · intro _
          simp [String.length]
        · intro _ he
          have : (String.mk (c :: t)).data = ("" : String).data := by rw [he]
          simp at this

/-- Processing one word appends it to the bucket of `c` once per
occurrence of `c` among its non-empty codes. -/
theorem addWord_apply (maxLen : Int) (m : String → List String) (w c : String) :
    addWord maxLen m w c =
      m c ++ List.replicate ((codesOf w maxLen).count c) w := by
  unfold addWord codesOf mapAppend
  dsimp only
  split_ifs
  all_goals try dsimp only
  all_goals try split_ifs
  all_goals
    simp_all [List.count_append, List.count_singleton, List.count_nil,
      beq_iff_eq, List.replicate_succ, List.append_assoc]

/-- The bucket map built by folding `addWord` over a word list. -/
theorem foldl_addWord_apply (maxLen : Int) :
    ∀ (wl : List String) (m0 : String → List String) (c : String),
      (wl.foldl (addWord maxLen) m0) c =
        m0 c ++
          wl.flatMap (fun w => List.replicate ((codesOf w maxLen).count c) w) := by
  intro wl
  induction wl with
  | nil => intro m0 c; simp
  | cons w t ih =>
    intro m0 c
    rw [List.foldl_cons, ih, List.flatMap_cons, addWord_apply,
      List.append_assoc]

/-- Characterization of a bucket of the built index: each indexed word
appears once per occurrence of the code among its non-empty codes, in
word-list order. -/
theorem mapper_eq (wl : List String) (ml : Int) (c : String) :
    (NewMetaphMap wl ml).mapper c =
      wl.flatMap (fun w => List.replicate ((codesOf w ml).count c) w) := by
  show (wl.foldl (addWord ml) (fun _ => [])) c = _
  rw [foldl_addWord_apply]
  simp

/-- Every indexed word is in the bucket of each of its non-empty
codes. -/
theorem mem_bucket (wl : List String) (ml : Int) (w : String) (hw : w ∈ wl)
    (c : String) (hc : c ∈ codesOf w ml) :
    w ∈ (NewMetaphMap wl ml).mapper c := by
  rw [mapper_eq]
  refine List.mem_flatMap.2 ⟨w, hw, List.mem_replicate.2 ⟨?_, rfl⟩⟩
  have : 0 < (codesOf w ml).count c := List.count_pos_iff_mem.2 hc
  omega

/-- A word's non-empty primary code is among its codes. -/
theorem mem_codesOf_fst (w : String) (ml : Int)
    (h : (DoubleMetaphone w ml).1 ≠ "") :
    (DoubleMetaphone w ml).1 ∈ codesOf w ml := by
  unfold codesOf
  dsimp only
  rw [if_pos ((string_ne_empty_iff_length_pos _).1 h)]
  exact List.mem_append_left _ (List.mem_singleton.2 rfl)

/-- A word's non-empty secondary code is among its codes. -/
theorem mem_codesOf_snd (w : String) (ml : Int)
    (h : (DoubleMetaphone w ml).2 ≠ "") :
    (DoubleMetaphone w ml).2 ∈ codesOf w ml := by
  unfold codesOf
  dsimp only
  rw [if_pos ((string_ne_empty_iff_length_pos _).1 h)]
  exact List.mem_append_right _ (List.mem_singleton.2 rfl)

/-- Codes in `codesOf` are non-empty. -/
theorem ne_empty_of_mem_codesOf (w : String) (ml : Int) (c : String)
    (hc : c ∈ codesOf w ml) : c ≠ "" := by
  unfold codesOf at hc
  dsimp only at hc
  rcases List.mem_append.1 hc with hm | hm
  · split at hm
    · rw [List.mem_singleton.1 hm]
      rename_i hpos
      exact (string_ne_empty_iff_length_pos _).2 hpos
    · exact absurd hm (List.not_mem_nil _)
  · split at hm
    · rw [List.mem_singleton.1 hm]
      rename_i hpos
      exact (string_ne_empty_iff_length_pos _).2 hpos
    · exact absurd hm (List.not_mem_nil _)

/-- Concatenating one copy of each distinct word (at most once per
word) preserves duplicate-freedom. -/
theorem flatMap_replicate_nodup (f : String → Nat) :
    ∀ (wl : List String), wl.Nodup → (∀ w ∈ wl, f w ≤ 1) →
      (wl.flatMap (fun w => List.replicate (f w) w)).Nodup := by
  intro wl
  induction wl with
  | nil => intro _ _; simp
  | cons w t ih =>
    intro hn hf
    rw [List.flatMap_cons]
    rcases List.nodup_cons.1 hn with ⟨hw, ht⟩
    refine List.Nodup.append ?_
      (ih ht (fun x hx => hf x (List.mem_cons_of_mem _ hx))) ?_
    · have : f w ≤ 1 := hf w (List.mem_cons_self w t)
      interval_cases h : f w <;> simp
    · intro x hx1 hx2
      have hxw : x = w := List.eq_of_mem_replicate hx1
      obtain ⟨y, hy, hy2⟩ := List.mem_flatMap.1 hx2
      have hxy : x = y := List.eq_of_mem_replicate hy2
      exact hw (hxw ▸ hxy ▸ hy)

/-- The uppercase table either fixes a character or sends it into
`upperOut`. -/
theorem goToUpperChar_out (c : Char) :
    goToUpperChar c = c ∨ goToUpperChar c ∈ upperOut := by
  unfold goToUpperChar
  split_ifs
  · right; decide
  · right; decide
  · split
    all_goals first | (left; rfl) | (right; decide)

/-- Uppercasing a character is idempotent. -/
theorem goToUpperChar_idem (c : Char) :
    goToUpperChar (goToUpperChar c) = goToUpperChar c := by
  rcases goToUpperChar_out c with h | h
  · rw [h]; exact h
  · have hfix : ∀ d ∈ upperOut, goToUpperChar d = d := by decide
    exact hfix _ h

/-- On the exactly-modelled characters (ASCII, `ç`/`Ç`/`ñ`/`Ñ`),
lowercasing then uppercasing equals uppercasing. -/
theorem goToUpperChar_toLower (c : Char)
    (h : c.toNat < 128 ∨ c ∈ ['ç', 'Ç', 'ñ', 'Ñ']) :
    goToUpperChar (goToLowerChar c) = goToUpperChar c := by
  unfold goToLowerChar
  split_ifs with h1 h2 h3
  · rw [h1] at h; exact absurd h (by decide)
  · rw [h2] at h; exact absurd h (by decide)
  · rw [h3] at h; exact absurd h (by decide)
  · split
    all_goals first | rfl | (rename_i heq; rw [heq]; decide)

/-- On the exactly-modelled characters, uppercasing preserves the UTF-8
byte width. -/
theorem utf8Size_goToUpperChar (c : Char)
    (h : c.toNat < 128 ∨ c ∈ ['ç', 'Ç', 'ñ', 'Ñ']) :
    (goToUpperChar c).utf8Size = c.utf8Size := by
  unfold goToUpperChar
  split_ifs with h1 h2
  · rw [h1] at h; exact absurd h (by decide)
  · rw [h2] at h; exact absurd h (by decide)
  · split
    all_goals first | rfl | (rename_i heq; rw [heq]; decide)

/-- On the exactly-modelled characters, lowercasing preserves the UTF-8
byte width. -/
theorem utf8Size_goToLowerChar (c : Char)
    (h : c.toNat < 128 ∨ c ∈ ['ç', 'Ç', 'ñ', 'Ñ']) :
    (goToLowerChar c).utf8Size = c.utf8Size := by
  unfold goToLowerChar
  split_ifs with h1 h2 h3
  · rw [h1] at h; exact absurd h (by decide)
  · rw [h2] at h; exact absurd h (by decide)
  · rw [h3] at h; exact absurd h (by decide)
  · split
    all_goals first | rfl | (rename_i heq; rw [heq]; decide)

/-- A width-preserving character map preserves the byte length of a
word. -/
theorem utf8ByteSize_go_map (f : Char → Char) :
    ∀ (l : List Char), (∀ c ∈ l, (f c).utf8Size = c.utf8Size) →
      String.utf8ByteSize.go (l.map f) = String.utf8ByteSize.go l := by
  intro l
  induction l with
  | nil => intro h; rfl
  | cons c cs ih =>
      intro h
      simp only [List.map_cons, String.utf8ByteSize.go]
      rw [ih (fun d hd => h d (List.mem_cons_of_mem c hd)),
        h c (List.mem_cons_self c cs)]

/-- A width-preserving character map preserves `utf8ByteSize`. -/
theorem utf8ByteSize_map (f : Char → Char) (s : String)
    (h : ∀ c ∈ s.data, (f c).utf8Size = c.utf8Size) :
    (String.mk (s.data.map f)).utf8ByteSize = s.utf8ByteSize := by
  cases s with
  | mk data => exact utf8ByteSize_go_map f data h

/-- The encoder reads its input word only through its byte length and
its uppercased rune sequence. -/
theorem double_metaphone_congr (w1 w2 : String) (L : Int)
    (hsize : w1.utf8ByteSize = w2.utf8ByteSize)
    (hmap : w1.data.map goToUpperChar = w2.data.map goToUpperChar) :
    DoubleMetaphone w1 L = DoubleMetaphone w2 L := by
  have hctx : mkCtx w1 (if L < 1 then 4 else L) = mkCtx w2 (if L < 1 then 4 else L) := by
    unfold mkCtx
    rw [hsize, hmap]
  have hst : doubleMetaphoneSt w1 L = doubleMetaphoneSt w2 L := by
    unfold doubleMetaphoneSt
    dsimp only
    rw [hsize, hctx]
  unfold DoubleMetaphone
  rw [hst]

/-- C7 (amended): encoding is case-insensitive on words over the
exactly-modelled character set (ASCII plus `ç`/`Ç`/`ñ`/`Ñ`):
`DoubleMetaphone w L`, `DoubleMetaphone (goToUpper w) L` and
`DoubleMetaphone (goToLower w) L` coincide.  It is not case-insensitive
for arbitrary Unicode input (see the counterexample: U+212A KELVIN
SIGN lowercases to ASCII `k`, which encodes differently). -/
theorem case_insensitive_on_modeled_chars (w : String) (L : Int)
    (h : ∀ c ∈ w.data, c.toNat < 128 ∨ c ∈ ['ç', 'Ç', 'ñ', 'Ñ']) :
    DoubleMetaphone (goToUpper w) L = DoubleMetaphone w L ∧
      DoubleMetaphone (goToLower w) L = DoubleMetaphone w L := by
  constructor
  · apply double_metaphone_congr
    · exact utf8ByteSize_map goToUpperChar w
        (fun c hc => utf8Size_goToUpperChar c (h c hc))
    · show (w.data.map goToUpperChar).map goToUpperChar =
        w.data.map goToUpperChar
      rw [List.map_map]
      exact List.map_congr_left (fun c _ => goToUpperChar_idem c)
  · apply double_metaphone_congr
    · exact utf8ByteSize_map goToLowerChar w
        (fun c hc => utf8Size_goToLowerChar c (h c hc))
    · show (w.data.map goToLowerChar).map goToUpperChar =
        w.data.map goToUpperChar
      rw [List.map_map]
      exact List.map_congr_left (fun c hc => goToUpperChar_toLower c (h c hc))

/-- Witness for the amended C7 at a concrete mixed-case input. -/
theorem case_insensitive_on_modeled_chars_witness :
    DoubleMetaphone (goToUpper "pNeumonia") 4 = DoubleMetaphone "pNeumonia" 4 ∧
      DoubleMetaphone (goToLower "pNeumonia") 4 = DoubleMetaphone "pNeumonia" 4 :=
  case_insensitive_on_modeled_chars "pNeumonia" 4 (by decide)

/-- C7 fails as stated: for the word consisting of U+212A KELVIN SIGN
(whose lowercase is ASCII `k`), the encoder returns `("", "")` on the
word itself but `("K", "")` on its lowercase form, so the three
case-variants do not all encode alike. -/
theorem case_insensitive_counterexample :
    goToLower kelvinWord = "k" ∧
      DoubleMetaphone kelvinWord 4 = ("", "") ∧
      DoubleMetaphone (goToLower kelvinWord) 4 = ("K", "") ∧
      ¬(DoubleMetaphone kelvinWord 4 = DoubleMetaphone (goToUpper kelvinWord) 4 ∧
        DoubleMetaphone kelvinWord 4 = DoubleMetaphone (goToLower kelvinWord) 4) := by
  decide

/-- C5 fails as stated: the duplicate-free word list `["allela"]` at
max length 2 produces a bucket holding the same word twice, because
"allela" yields the same non-empty code "AL" as both primary and
secondary, and `NewMetaphMap` appends it once per code. -/
theorem bucket_dup_counterexample :
    (["allela"] : List String).Nodup ∧
      DoubleMetaphone "allela" 2 = ("AL", "AL") ∧
      (NewMetaphMap ["allela"] 2).mapper "AL" = ["allela", "allela"] ∧
      ¬((NewMetaphMap ["allela"] 2).mapper "AL").Nodup := by
  decide

/-- C5 (amended): in the index built by `NewMetaphMap`, every input
word appears in the bucket of each non-empty code it produced; and no
bucket stores the same word twice provided the word list is
duplicate-free and no word produces the same non-empty code as both
its primary and secondary (a word with equal non-empty codes is stored
twice under that code, and a repeated word is stored once per
occurrence). -/
theorem bucket_invariant (wl : List String) (ml : Int) :
    (∀ w ∈ wl, ∀ c ∈ codesOf w ml, w ∈ (NewMetaphMap wl ml).mapper c) ∧
      (wl.Nodup →
        (∀ w ∈ wl, (DoubleMetaphone w ml).2 = "" ∨
          (DoubleMetaphone w ml).1 ≠ (DoubleMetaphone w ml).2) →
        ∀ c : String, ((NewMetaphMap wl ml).mapper c).Nodup) := by
  constructor
  · exact fun w hw c hc => mem_bucket wl ml w hw c hc
  · intro hn hd c
    rw [mapper_eq]
    apply flatMap_replicate_nodup _ wl hn
    intro w hw
    have hnd : (codesOf w ml).Nodup := by
      unfold codesOf
      dsimp only
      rcases hd w hw with h | h
      · have hp2 : ¬((DoubleMetaphone w ml).2.length > 0) := by
          rw [h]
          decide
        rw [if_neg hp2, List.append_nil]
        split <;> simp
      · split <;> split <;> simp [h]
    have := List.nodup_iff_count_le_one.1 hnd c
    omega

/-- Witness for the amended C5 at a concrete duplicate-free word
list. -/
theorem bucket_invariant_witness :
    "cat" ∈ (NewMetaphMap ["cat", "dog"] 4).mapper "KT" ∧
      ((NewMetaphMap ["cat", "dog"] 4).mapper "KT").Nodup :=
  ⟨(bucket_invariant ["cat", "dog"] 4).1 "cat" (by decide) "KT" (by decide),
    (bucket_invariant ["cat", "dog"] 4).2 (by decide) (by decide) "KT"⟩

/-- C4: for every word list, max length, and query word whose primary
code is non-empty, `MatchWord` on the index built by `NewMetaphMap`
(which re-encodes the query with the index's own max length) returns,
as a set, exactly the union of the buckets of the query's non-empty
codes, with no duplicate entries; in particular it contains the query
word itself when it is in the word list, and every indexed word sharing
either of the query's codes. -/
theorem matchword_spec (wl : List String) (ml : Int) (w : String)
    (h : (DoubleMetaphone w ml).1 ≠ "") :
    (∀ x, x ∈ MatchWord (NewMetaphMap wl ml) w ↔
        (x ∈ (NewMetaphMap wl ml).mapper (DoubleMetaphone w ml).1 ∨
          ((DoubleMetaphone w ml).2 ≠ "" ∧
            x ∈ (NewMetaphMap wl ml).mapper (DoubleMetaphone w ml).2))) ∧
      (MatchWord (NewMetaphMap wl ml) w).Nodup ∧
      (w ∈ wl → w ∈ MatchWord (NewMetaphMap wl ml) w) ∧
      (∀ x ∈ wl, ∀ c ∈ codesOf x ml,
        (c = (DoubleMetaphone w ml).1 ∨ c = (DoubleMetaphone w ml).2) →
        x ∈ MatchWord (NewMetaphMap wl ml) w) := by
  have h1 : (DoubleMetaphone w ml).1.length > 0 :=
    (string_ne_empty_iff_length_pos _).1 h
  have hmem : ∀ x, x ∈ MatchWord (NewMetaphMap wl ml) w ↔
      (x ∈ (NewMetaphMap wl ml).mapper (DoubleMetaphone w ml).1 ∨
        ((DoubleMetaphone w ml).2 ≠ "" ∧
          x ∈ (NewMetaphMap wl ml).mapper (DoubleMetaphone w ml).2)) := by
    intro x
    unfold MatchWord removeDups
    dsimp only
    have hmax : (NewMetaphMap wl ml).maxlen = ml := rfl
    rw [hmax, List.mem_dedup, if_pos h1]
    by_cases h2 : (DoubleMetaphone w ml).2.length > 0
    · rw [if_pos h2, List.mem_append]
      have : (DoubleMetaphone w ml).2 ≠ "" :=
        (string_ne_empty_iff_length_pos _).2 h2
      simp [this]
    · rw [if_neg h2]
      have : ¬((DoubleMetaphone w ml).2 ≠ "") := by
        rw [string_ne_empty_iff_length_pos]
        exact h2
      simp [this]
  refine ⟨hmem, ?_, ?_, ?_⟩
  · exact List.nodup_dedup _
  · intro hw
    exact (hmem w).2 (Or.inl (mem_bucket wl ml w hw _ (mem_codesOf_fst w ml h)))
  · intro x hx c hc hor
    have hb := mem_bucket wl ml x hx c hc
    rcases hor with rfl | rfl
    · exact (hmem x).2 (Or.inl hb)
    · exact (hmem x).2 (Or.inr ⟨ne_empty_of_mem_codesOf x ml _ hc, hb⟩)

/-- Witness for C4 at a concrete index and query. -/
theorem matchword_spec_witness :
    "knewmoanya" ∈
      MatchWord (NewMetaphMap ["knewmoanya", "pneumonia"] 4) "knewmoanya" ∧
      (MatchWord (NewMetaphMap ["knewmoanya", "pneumonia"] 4) "knewmoanya").Nodup :=
  ⟨(matchword_spec ["knewmoanya", "pneumonia"] 4 "knewmoanya"
      (by decide)).2.2.1 (by decide),
    (matchword_spec ["knewmoanya", "pneumonia"] 4 "knewmoanya"
      (by decide)).2.1⟩

end Metaphone
